import Mathlib

/-!
# Verification of the workmate task service

A shallow embedding of the task-management service (package `taskservice`),
its in-memory task store (package `taskrepository`) and the task data model
(package `taskmodel`), together with theorems settling the specified
behavioural properties.

Modelling conventions:
* `uuid.UUID` identifiers are modelled as `Nat`.
* `time.Time` instants and `time.Duration` values are modelled as `Int`
  nanoseconds (Go's `time.Duration` is an `int64` count of nanoseconds).
* `sync.Map` is modelled as an association list with first-match lookup.
* Goroutine interleaving is modelled by explicit schedules of atomic events;
  fallible store writes take their outcome from the schedule.
-/

namespace Workmate

/-- `taskmodel.TaskStatus` (source: internal/models/taskmodel/task.go). -/
inductive TaskStatus where
  | PROCESSING
  | DONE
  | FAILED
deriving DecidableEq, Repr

/-- `taskmodel.Task` (source: internal/models/taskmodel/task.go). -/
structure Task where
  id : Nat
  name : String
  status : TaskStatus
  createdAt : Int
  processingTime : Int
deriving DecidableEq, Repr

/-- `Task.IsProcessing` from taskmodel: `t.Status == StatusProcessing`. -/
def Task.IsProcessing (t : Task) : Bool := t.status == .PROCESSING

/-- `Task.IsDone` from taskmodel. -/
def Task.IsDone (t : Task) : Bool := t.status == .DONE

/-- `Task.IsFailed` from taskmodel. -/
def Task.IsFailed (t : Task) : Bool := t.status == .FAILED

/-! ## Durations (Go `time` package constants, in nanoseconds) -/

/-- One second, as a Go `time.Duration` (nanoseconds). -/
def second : Int := 1000000000

/-- One minute, as a Go `time.Duration` (nanoseconds). -/
def minute : Int := 60 * second

/-- `defaultTimeToProcessTask = 6 * time.Minute` (service file, constant). -/
def defaultTimeToProcessTask : Int := 6 * minute

/-- The hard-coded `shutdownTimeout := 30 * time.Second` inside `Service.Shutdown`. -/
def shutdownTimeout : Int := 30 * second

/-- The executor's polling period: `time.NewTicker(1 * time.Second)`. -/
def tickInterval : Int := 1 * second

/-- Model of `rand.Intn n`: a uniform draw in `[0, n)`, obtained from an
arbitrary random source value `r` by reduction mod `n`. -/
def intn (n r : Nat) : Nat := r % n

/-- The synthetic workload duration drawn at task start:
`time.Duration(3+rand.Intn(3)) * time.Minute` in `Service.executeTask`. -/
def drawWorkDuration (r : Nat) : Int := ((3 + intn 3 r : Nat) : Int) * minute

/-! ## In-memory task store (`taskrepository.InMemoryTaskRepository`)

The `sync.Map` keyed by task id is modelled as an association list with
first-match lookup; `Store` replaces any previous binding. -/

/-- The repository's backing map: id-to-task bindings. -/
abbrev Repo := List (Nat × Task)

/-- `sync.Map.Load`. -/
def rLoad (r : Repo) (id : Nat) : Option Task :=
  (r.find? (fun p => p.1 == id)).map (·.2)

/-- `sync.Map.Store` (replace or insert the binding for `id`). -/
def rStore (r : Repo) (id : Nat) (t : Task) : Repo :=
  (id, t) :: r.filter (fun p => p.1 != id)

/-- `sync.Map.Delete`. -/
def rDelete (r : Repo) (id : Nat) : Repo :=
  r.filter (fun p => p.1 != id)

/-- `InMemoryTaskRepository.copyTask`: a field-by-field copy of the record. -/
def copyTask (original : Task) : Task :=
  { id := original.id
    name := original.name
    status := original.status
    createdAt := original.createdAt
    processingTime := original.processingTime }

/-- Error outcomes of the store operations, per the repository's error
returns ("already exists" / "not found"). -/
inductive StoreError where
  | alreadyExists
  | notFound
deriving DecidableEq, Repr

/-- `InMemoryTaskRepository.Create`: fails when the id is already bound;
otherwise stamps `CreatedAt = now` on the caller's record and stores a copy.
Returns the new store state together with the caller's (mutated) record. -/
def repoCreate (r : Repo) (now : Int) (t : Task) : Except StoreError (Repo × Task) :=
  if (rLoad r t.id).isSome then .error .alreadyExists
  else
    let stamped := { t with createdAt := now }
    .ok (rStore r stamped.id (copyTask stamped), stamped)

/-- `InMemoryTaskRepository.GetByID`: fails when absent, otherwise returns a
copy of the stored record. -/
def repoGetByID (r : Repo) (id : Nat) : Except StoreError Task :=
  match rLoad r id with
  | none => .error .notFound
  | some t => .ok (copyTask t)

/-- `InMemoryTaskRepository.Update`: fails when the id is absent, otherwise
replaces the stored record with a copy of the argument. -/
def repoUpdate (r : Repo) (t : Task) : Except StoreError Repo :=
  if (rLoad r t.id).isSome then .ok (rStore r t.id (copyTask t))
  else .error .notFound

/-- `InMemoryTaskRepository.Delete`: fails when the id is absent, otherwise
removes the binding. -/
def repoDelete (r : Repo) (id : Nat) : Except StoreError Repo :=
  if (rLoad r id).isSome then .ok (rDelete r id)
  else .error .notFound

/-- `InMemoryTaskRepository.GetAll`: copies of every stored record. -/
def repoGetAll (r : Repo) : List Task := r.map (fun p => copyTask p.2)

/-! ## Execution contexts (`taskservice.TaskContext`) -/

/-- `taskservice.TaskContext`: `doneClosed` records whether the `Done`
channel has been closed (the completion signal has fired); `status` is the
last observed status field. The cancellation handle's state is tracked by
the operations that invoke it, not inside the record. -/
structure TaskContext where
  id : Nat
  started : Int
  doneClosed : Bool
  status : TaskStatus
deriving DecidableEq, Repr

/-- `TaskContext.IsFinished`: non-blocking check whether `Done` is closed. -/
def TaskContext.IsFinished (tc : TaskContext) : Bool := tc.doneClosed

/-- `TaskContext.markFinished`: sets `Status = status` unconditionally, then
closes `Done` only if it is not already closed. The returned `Bool` reports
whether this call fired the completion signal (performed the `close`). -/
def TaskContext.markFinished (tc : TaskContext) (status : TaskStatus) :
    TaskContext × Bool :=
  ({ tc with status := status, doneClosed := true }, !tc.doneClosed)

/-- Runs a sequence of `markFinished` calls on one context, returning the
final context and the number of times the completion signal fired. -/
def runMarkFinished (tc : TaskContext) : List TaskStatus → TaskContext × Nat
  | [] => (tc, 0)
  | s :: rest =>
    let step := tc.markFinished s
    let r := runMarkFinished step.1 rest
    (r.1, (if step.2 then 1 else 0) + r.2)

/-! ## The task executor (`Service.executeTask`)

One loop iteration of `executeTask` is an atomic event of a schedule: either
the cancellation signal is observed, or the 1-second ticker fires. Each event
carries the elapsed time `time.Since(start)` observed at that moment, and the
outcome the store gives to any fallible `repo.Update` performed during the
event (the outcome depends on concurrent deletions, so it belongs to the
environment). -/

/-- One observable event in an executor run. `finalizeOk` is the outcome of
the best-effort `repo.Update` inside `finalizeTask`, when one happens. -/
inductive ExecEvent where
  | cancelled (elapsed : Int) (finalizeOk : Bool)
  | tick (elapsed : Int) (updateOk : Bool) (finalizeOk : Bool)
deriving DecidableEq, Repr

/-- One `repo.Update` call issued by the executor: the record's status and
processing time, and whether the store accepted the write. -/
structure RepoWrite where
  status : TaskStatus
  processingTime : Int
  ok : Bool
deriving DecidableEq, Repr

/-- The `for { select { ... } }` loop of `Service.executeTask`, run against a
schedule of events. Returns the sequence of `repo.Update` calls issued, in
order, and the status passed to `taskContext.markFinished` on return
(`none` when the schedule ends with the loop still running).

Source, per event:
* cancellation observed: `finalizeTask(&task, StatusFailed, time.Since(start))`,
  `markFinished(StatusFailed)`, return;
* tick with `elapsed >= workDuration`: `finalizeTask(&task, StatusDone, elapsed)`,
  `markFinished(StatusDone)`, return;
* tick otherwise: `task.ProcessingTime = elapsed; repo.Update(&task)` (status
  still PROCESSING); on update error `finalizeTask(&task, StatusFailed, elapsed)`,
  `markFinished(StatusFailed)`, return; on success, loop again. -/
def execRun (workDuration : Int) : List ExecEvent → List RepoWrite × Option TaskStatus
  | [] => ([], none)
  | .cancelled e fin :: _ => ([⟨.FAILED, e, fin⟩], some .FAILED)
  | .tick e upd fin :: rest =>
    if workDuration ≤ e then ([⟨.DONE, e, fin⟩], some .DONE)
    else if upd then
      let r := execRun workDuration rest
      (⟨.PROCESSING, e, true⟩ :: r.1, r.2)
    else ([⟨.PROCESSING, e, false⟩, ⟨.FAILED, e, fin⟩], some .FAILED)

/-- Effect of one `repo.Update` call on the stored status: a rejected write
leaves the store unchanged. -/
def applyWrite (s : TaskStatus) (w : RepoWrite) : TaskStatus :=
  if w.ok then w.status else s

/-- The stored status of the task after the executor has processed a given
schedule, starting from the PROCESSING status persisted at creation. -/
def statusAfter (workDuration : Int) (sched : List ExecEvent) : TaskStatus :=
  ((execRun workDuration sched).1).foldl applyWrite .PROCESSING

/-! ## The lifecycle coordinator (`taskservice.Service`) -/

/-- The coordinator's shared state: the store and the context registry. -/
structure ServiceState where
  repo : Repo
  contexts : List (Nat × TaskContext)
deriving DecidableEq, Repr

/-- Error outcomes of the coordinator operations. -/
inductive SvcError where
  | notFound
  | createFailed
  | deleteFailed
  | timeout
deriving DecidableEq, Repr

/-- `Service.loadTaskContext`. -/
def loadTaskContext (st : ServiceState) (id : Nat) : Option TaskContext :=
  (st.contexts.find? (fun p => p.1 == id)).map (·.2)

/-- `sync.Map.Delete` on the context registry. -/
def removeContext (ctxs : List (Nat × TaskContext)) (id : Nat) :
    List (Nat × TaskContext) :=
  ctxs.filter (fun p => p.1 != id)

/-- `Service.updateTaskProcessingTime`: when the task is PROCESSING and a
registered, unfinished context exists for it, overlay
`task.ProcessingTime = time.Since(taskContext.Started)`. -/
def updateTaskProcessingTime (st : ServiceState) (now : Int) (task : Task) : Task :=
  if !task.IsProcessing then task
  else
    match loadTaskContext st task.id with
    | some tc =>
      if !tc.IsFinished then { task with processingTime := now - tc.started }
      else task
    | none => task

/-- `Service.GetTask`: fetch from the store (error propagates), then overlay
the live processing time. -/
def getTask (st : ServiceState) (now : Int) (id : Nat) : Except SvcError Task :=
  match repoGetByID st.repo id with
  | .error _ => .error .notFound
  | .ok t => .ok (updateTaskProcessingTime st now t)

/-- `Service.ListTasks`: fetch all, overlay live processing time on each. -/
def listTasks (st : ServiceState) (now : Int) : List Task :=
  (repoGetAll st.repo).map (updateTaskProcessingTime st now)

/-- `Service.GetTaskStatus`: snapshot of the live context's status; `none`
when no context is registered for the id. -/
def getTaskStatus (st : ServiceState) (id : Nat) : Option TaskStatus :=
  (loadTaskContext st id).map (·.status)

/-- `Service.CreateTask`: build a fresh task (PROCESSING, created now),
persist it, derive a cancellable scope with deadline
`now + defaultTimeToProcessTask`, register a context, launch the executor.
Returns the new state, the created task and the scope's deadline. -/
def createTask (st : ServiceState) (now : Int) (freshId : Nat) (name : String) :
    Except SvcError (ServiceState × Task × Int) :=
  let task : Task :=
    { id := freshId, name := name, status := .PROCESSING
      createdAt := now, processingTime := 0 }
  match repoCreate st.repo now task with
  | .error _ => .error .createFailed
  | .ok (r', task') =>
    let tc : TaskContext :=
      { id := task'.id, started := now, doneClosed := false, status := .PROCESSING }
    .ok ({ repo := r', contexts := (task'.id, tc) :: removeContext st.contexts task'.id },
         task', now + defaultTimeToProcessTask)

/-- `Service.DeleteTask`. `vanished` injects the interleaving in which the
stored record is removed by a concurrent writer between the existence check
and the `repo.Delete` call. Returns the result, the new state, and the list
of task ids whose execution scope was cancelled by this call. -/
def deleteTask (st : ServiceState) (vanished : Bool) (id : Nat) :
    Except SvcError Unit × ServiceState × List Nat :=
  match repoGetByID st.repo id with
  | .error _ => (.error .notFound, st, [])
  | .ok _ =>
    let step :=
      match loadTaskContext st id with
      | some _ => (removeContext st.contexts id, [id])
      | none => (st.contexts, ([] : List Nat))
    let repo₀ := if vanished then rDelete st.repo id else st.repo
    match repoDelete repo₀ id with
    | .error _ => (.error .deleteFailed, { repo := repo₀, contexts := step.1 }, step.2)
    | .ok r' => (.ok (), { repo := r', contexts := step.1 }, step.2)

/-- `Service.Shutdown`: cancel every registered, unfinished context; then
wait on the drain (`wg.Wait`) under `context.WithTimeout(ctx, 30s)`, i.e.
under the earlier of the caller's deadline and `now + shutdownTimeout`.
`drainDoneAt` is the instant at which the drain completes; the result is the
list of cancelled task ids and the returned error. -/
def shutdown (st : ServiceState) (now callerDeadline drainDoneAt : Int) :
    List Nat × Except SvcError Unit :=
  let cancelled := (st.contexts.filter (fun p => !p.2.IsFinished)).map (·.1)
  let effectiveDeadline := min callerDeadline (now + shutdownTimeout)
  if drainDoneAt ≤ effectiveDeadline then (cancelled, .ok ())
  else (cancelled, .error .timeout)

/-! ## Pointer-level model of the store boundary

Go passes `*taskmodel.Task` across the repository boundary. To state that the
repository exchanges independent copies (no aliasing between caller-held
pointers and store-held pointers), the same repository operations are modelled
once more over an explicit heap: a reference is an index into a list of task
records, and `copyTask` allocates a fresh cell. -/

/-- A heap of task records; a reference is an index into `cells`, and
allocation appends a fresh cell. -/
structure Heap where
  cells : List Task
deriving DecidableEq, Repr

/-- Dereference a task pointer. -/
def Heap.read (h : Heap) (r : Nat) : Option Task := h.cells[r]?

/-- Mutate the record a pointer refers to. -/
def Heap.write (h : Heap) (r : Nat) (t : Task) : Heap := ⟨h.cells.set r t⟩

/-- Allocate a fresh record (`&taskmodel.Task{...}`), returning its pointer. -/
def Heap.alloc (h : Heap) (t : Task) : Heap × Nat :=
  (⟨h.cells ++ [t]⟩, h.cells.length)

/-- The repository's `sync.Map` at the pointer level: task id to the pointer
of the store-owned record. -/
structure HRepo where
  entries : List (Nat × Nat)
deriving DecidableEq, Repr

/-- Pointer held by the store for a task id, if any. -/
def HRepo.refOf (r : HRepo) (id : Nat) : Option Nat :=
  (r.entries.find? (fun p => p.1 == id)).map (·.2)

/-- `Create` at the pointer level: dereference the caller's argument, check
for an existing binding, stamp `CreatedAt = now` through the caller's pointer,
then store a freshly allocated `copyTask` cell. Returns the heap, the new
store state and the pointer of the store-owned cell; `none` on any error. -/
def hCreate (h : Heap) (r : HRepo) (now : Int) (p : Nat) :
    Option (Heap × HRepo × Nat) :=
  match h.read p with
  | none => none
  | some t =>
    if (r.refOf t.id).isSome then none
    else
      let stamped := { t with createdAt := now }
      let h₁ := h.write p stamped
      let a := h₁.alloc (copyTask stamped)
      some (a.1, ⟨(t.id, a.2) :: r.entries⟩, a.2)

/-- `GetByID` at the pointer level: dereference the store-owned cell and
return a pointer to a freshly allocated `copyTask` cell. -/
def hGetByID (h : Heap) (r : HRepo) (id : Nat) : Option (Heap × Nat) :=
  match r.refOf id with
  | none => none
  | some p =>
    match h.read p with
    | none => none
    | some t => some (h.alloc (copyTask t))

/-- `Update` at the pointer level: dereference the caller's argument; when a
binding exists, replace it by a freshly allocated `copyTask` cell. -/
def hUpdate (h : Heap) (r : HRepo) (p : Nat) : Option (Heap × HRepo) :=
  match h.read p with
  | none => none
  | some t =>
    if (r.refOf t.id).isSome then
      let a := h.alloc (copyTask t)
      some (a.1, ⟨(t.id, a.2) :: r.entries.filter (fun e => e.1 != t.id)⟩)
    else none

/-- `GetAll` at the pointer level: for each binding, allocate a fresh
`copyTask` cell and return its pointer (bindings whose cell cannot be read
are skipped, as the type assertion skips non-task values). -/
def hGetAll (h : Heap) : List (Nat × Nat) → Heap × List Nat
  | [] => (h, [])
  | e :: rest =>
    match h.read e.2 with
    | none => hGetAll h rest
    | some t =>
      let a := h.alloc (copyTask t)
      let r := hGetAll a.1 rest
      (r.1, a.2 :: r.2)

/-- Well-formedness of the pointer-level store: every store-owned pointer is
a valid reference into the heap. -/
def HWf (h : Heap) (r : HRepo) : Prop :=
  ∀ e ∈ r.entries, e.2 < h.cells.length

/-! ## Helper lemmas -/

/-- The field-by-field copy loses no field: the record type has exactly the
five copied fields, so a copy is a complete snapshot. -/
theorem copyTask_eq (t : Task) : copyTask t = t := rfl

/-- A first-match lookup never finds a key that the filter removed. -/
theorem find_key_filter_ne {α : Type} (l : List (Nat × α)) (id : Nat) :
    (l.filter (fun p => p.1 != id)).find? (fun p => p.1 == id) = none := by
  rw [List.find?_eq_none]
  intro x hx
  rcases List.mem_filter.mp hx with ⟨-, hne⟩
  simpa using ne_of_beq_false (Bool.of_not_eq_true (by simpa using hne))

/-- Looking up the deleted key fails. -/
theorem rLoad_rDelete_self (r : Repo) (id : Nat) :
    rLoad (rDelete r id) id = none := by
  simp [rLoad, rDelete, find_key_filter_ne]

/-- Looking up the stored key returns the stored record. -/
theorem rLoad_rStore_self (r : Repo) (id : Nat) (t : Task) :
    rLoad (rStore r id t) id = some t := by
  simp [rLoad, rStore, List.find?]

/-- Looking up a context after its removal from the registry fails. -/
theorem loadTaskContext_removeContext_self (st : ServiceState) (ctxs : List (Nat × TaskContext)) (id : Nat)
    (h : st.contexts = removeContext ctxs id) :
    loadTaskContext st id = none := by
  simp [loadTaskContext, h, removeContext, find_key_filter_ne]

/-- Once the completion signal has fired, further `markFinished` calls never
fire it again, but each call still overwrites the recorded status. -/
theorem runMarkFinished_of_finished (tc : TaskContext) (seq : List TaskStatus)
    (h : tc.doneClosed = true) :
    (runMarkFinished tc seq).2 = 0 ∧
    (runMarkFinished tc seq).1.status = seq.getLastD tc.status ∧
    (runMarkFinished tc seq).1.doneClosed = true := by
  induction seq generalizing tc with
  | nil => simp [runMarkFinished, h]
  | cons s rest ih =>
    have step := ih { tc with status := s, doneClosed := true } rfl
    simp only [runMarkFinished, TaskContext.markFinished, h, Bool.not_true,
      List.getLastD_cons]
    simpa using step

/-! ## C1 -/

/-- C1, counterexample. The claim states that across a sequence of
`markFinished` calls the recorded status is the one set by the first call and
later calls leave it unchanged. On a fresh context, the call sequence
`[DONE, FAILED]` records `FAILED`: the second call overwrote the first
caller's `DONE`, even though the completion signal fired only once. -/
theorem c1_counterexample :
    (runMarkFinished ⟨1, 0, false, .PROCESSING⟩ [.DONE]).1.status = .DONE ∧
    (runMarkFinished ⟨1, 0, false, .PROCESSING⟩ [.DONE, .FAILED]).1.status = .FAILED ∧
    TaskStatus.FAILED ≠ TaskStatus.DONE ∧
    (runMarkFinished ⟨1, 0, false, .PROCESSING⟩ [.DONE, .FAILED]).2 = 1 := by
  refine ⟨rfl, rfl, by decide, rfl⟩

/-- C1, amended. Across any nonempty sequence of `markFinished` calls on a
context whose completion signal has not yet fired, the signal fires exactly
once (only the first call closes the channel) and the context ends up
finished — but every call overwrites the recorded status, so the recorded
status is the one set by the *last* call, not the first. -/
theorem c1_markFinished_fires_once_last_status_wins
    (tc : TaskContext) (s : TaskStatus) (seq : List TaskStatus)
    (h : tc.doneClosed = false) :
    (runMarkFinished tc (s :: seq)).2 = 1 ∧
    (runMarkFinished tc (s :: seq)).1.status = seq.getLastD s ∧
    (runMarkFinished tc (s :: seq)).1.doneClosed = true := by
  have step := runMarkFinished_of_finished { tc with status := s, doneClosed := true } seq rfl
  simp only [runMarkFinished, TaskContext.markFinished, h, Bool.not_false,
    if_true, List.getLastD_cons]
  exact ⟨by omega, step.2.1, step.2.2⟩

/-- C1, witness for the amended theorem at a concrete input. -/
theorem c1_witness :
    (runMarkFinished ⟨2, 0, false, .PROCESSING⟩ [.FAILED, .DONE]).2 = 1 ∧
    (runMarkFinished ⟨2, 0, false, .PROCESSING⟩ [.FAILED, .DONE]).1.status =
      [TaskStatus.DONE].getLastD .FAILED ∧
    (runMarkFinished ⟨2, 0, false, .PROCESSING⟩ [.FAILED, .DONE]).1.doneClosed = true :=
  c1_markFinished_fires_once_last_status_wins ⟨2, 0, false, .PROCESSING⟩ .FAILED [.DONE] rfl

/-! ## C2 -/

/-- C2, counterexample. The claim states that shutdown fails with Timeout
exactly when the caller's deadline elapses before the drain completes. With a
caller deadline of 60 seconds and a drain that completes at 40 seconds — well
within the caller's deadline — `Shutdown` nevertheless returns the timeout
error, because of the hard-coded 30-second `shutdownTimeout` it layers on top
of the caller's context. -/
theorem c2_counterexample :
    (shutdown ⟨[], []⟩ 0 (60 * second) (40 * second)).2 = .error .timeout ∧
    40 * second ≤ 60 * second := by
  refine ⟨rfl, by decide⟩

/-- C2, amended. `Shutdown` cancels every registered Execution Context whose
completion signal has not fired, then waits for the drain bounded by the
*earlier* of the caller-supplied deadline and a hard-coded 30-second shutdown
timeout: it returns success when the drain completes by that effective
deadline and fails with the Timeout error exactly when the effective deadline
elapses before the drain completes. -/
theorem c2_shutdown_bounded_by_min_deadline
    (st : ServiceState) (now callerDeadline drainDoneAt : Int) :
    ((shutdown st now callerDeadline drainDoneAt).2 = .ok () ↔
      drainDoneAt ≤ min callerDeadline (now + shutdownTimeout)) ∧
    ((shutdown st now callerDeadline drainDoneAt).2 = .error .timeout ↔
      ¬ drainDoneAt ≤ min callerDeadline (now + shutdownTimeout)) ∧
    (∀ id tc, (id, tc) ∈ st.contexts → tc.IsFinished = false →
      id ∈ (shutdown st now callerDeadline drainDoneAt).1) ∧
    (∀ id, id ∈ (shutdown st now callerDeadline drainDoneAt).1 →
      ∃ tc, (id, tc) ∈ st.contexts ∧ tc.IsFinished = false) ∧
    shutdownTimeout = 30 * second := by
  refine ⟨?_, ?_, ?_, ?_, rfl⟩
  · unfold shutdown
    by_cases hd : drainDoneAt ≤ min callerDeadline (now + shutdownTimeout) <;> simp [hd]
  · unfold shutdown
    by_cases hd : drainDoneAt ≤ min callerDeadline (now + shutdownTimeout) <;> simp [hd]
  · intro id tc hmem hfin
    unfold shutdown
    by_cases hd : drainDoneAt ≤ min callerDeadline (now + shutdownTimeout) <;>
      simp only [hd, if_true, if_false, List.mem_map, List.mem_filter] <;>
      exact ⟨(id, tc), ⟨hmem, by simp [hfin]⟩, rfl⟩
  · intro id hmem
    unfold shutdown at hmem
    by_cases hd : drainDoneAt ≤ min callerDeadline (now + shutdownTimeout) <;>
      simp only [hd, if_true, if_false, List.mem_map, List.mem_filter] at hmem <;>
      obtain ⟨⟨a, tc⟩, ⟨hmem', hfin⟩, rfl⟩ := hmem <;>
      exact ⟨tc, hmem', by simpa using hfin⟩

/-- C2, witness for the amended theorem at a concrete input: one live
context, caller deadline 60 s, drain complete at 10 s. -/
theorem c2_witness :
    (shutdown ⟨[], [(5, ⟨5, 0, false, .PROCESSING⟩)]⟩ 0 (60 * second) (10 * second)).2
      = .ok () ∧
    5 ∈ (shutdown ⟨[], [(5, ⟨5, 0, false, .PROCESSING⟩)]⟩ 0 (60 * second) (10 * second)).1 :=
  ⟨(c2_shutdown_bounded_by_min_deadline ⟨[], [(5, ⟨5, 0, false, .PROCESSING⟩)]⟩
      0 (60 * second) (10 * second)).1.mpr (by decide),
   (c2_shutdown_bounded_by_min_deadline ⟨[], [(5, ⟨5, 0, false, .PROCESSING⟩)]⟩
      0 (60 * second) (10 * second)).2.2.1 5 ⟨5, 0, false, .PROCESSING⟩
      (by decide) rfl⟩

/-! ## C3 -/

/-- Once the executor loop has returned (a finalization happened), extending
the schedule changes nothing: the executor performs no further writes. -/
theorem execRun_absorbed (wd : Int) (l₁ l₂ : List ExecEvent)
    (h : (execRun wd l₁).2.isSome) :
    execRun wd (l₁ ++ l₂) = execRun wd l₁ := by
  induction l₁ with
  | nil => simp [execRun] at h
  | cons e rest ih =>
    cases e with
    | cancelled el fin => rfl
    | tick el upd fin =>
      by_cases hle : wd ≤ el
      · simp [execRun, hle]
      · cases upd
        · simp [execRun, hle]
        · have h' : (execRun wd rest).2.isSome := by
            simpa [execRun, hle] using h
          simp only [List.cons_append, execRun, hle, if_false, if_true,
            List.append_eq, ih h']

/-- While the executor has not finalized, every write it has issued carries
status PROCESSING, so the stored status is still PROCESSING. -/
theorem statusAfter_of_none (wd : Int) (l : List ExecEvent)
    (h : (execRun wd l).2 = none) :
    statusAfter wd l = .PROCESSING := by
  induction l with
  | nil => rfl
  | cons e rest ih =>
    cases e with
    | cancelled el fin => simp [execRun] at h
    | tick el upd fin =>
      by_cases hle : wd ≤ el
      · simp [execRun, hle] at h
      · cases upd
        · simp [execRun, hle] at h
        · have h' : (execRun wd rest).2 = none := by simpa [execRun, hle] using h
          have tail := ih h'
          simp only [statusAfter, execRun, hle, if_false, if_true] at tail ⊢
          simpa [applyWrite] using tail

/-- Any status the executor passes to `markFinished` is terminal. -/
theorem execRun_final_terminal (wd : Int) (l : List ExecEvent) (s : TaskStatus)
    (h : (execRun wd l).2 = some s) : s = .DONE ∨ s = .FAILED := by
  induction l with
  | nil => simp [execRun] at h
  | cons e rest ih =>
    cases e with
    | cancelled el fin =>
      simp only [execRun] at h
      exact Or.inr (Option.some.inj h).symm
    | tick el upd fin =>
      by_cases hle : wd ≤ el
      · simp only [execRun, hle, if_true] at h
        exact Or.inl (Option.some.inj h).symm
      · cases upd
        · simp only [execRun, hle, if_false, Bool.false_eq_true] at h
          exact Or.inr (Option.some.inj h).symm
        · have h' : (execRun wd rest).2 = some s := by
            simpa [execRun, hle] using h
          exact ih h'

/-- C3: terminal-state invariant. Along any executor schedule, reading the
task at stage `i` (a prefix of the schedule) and later at stage `j`: once the
stored status is no longer PROCESSING it never changes again; the
finalization status recorded in the execution context likewise never changes
once set, and is always terminal (DONE or FAILED); consequently the only
possible change of the stored status starts from PROCESSING. -/
theorem c3_terminal_state_invariant (wd : Int) (sched : List ExecEvent) (i j : Nat)
    (hij : i ≤ j) :
    (statusAfter wd (sched.take i) ≠ .PROCESSING →
      statusAfter wd (sched.take j) = statusAfter wd (sched.take i)) ∧
    (∀ s, (execRun wd (sched.take i)).2 = some s →
      (execRun wd (sched.take j)).2 = some s) ∧
    (∀ s, (execRun wd (sched.take j)).2 = some s → s = .DONE ∨ s = .FAILED) ∧
    (statusAfter wd (sched.take i) ≠ statusAfter wd (sched.take j) →
      statusAfter wd (sched.take i) = .PROCESSING) := by
  have hdecomp : sched.take j = sched.take i ++ (sched.take j).drop i := by
    conv_lhs => rw [← List.take_append_drop i (sched.take j)]
    rw [List.take_take, min_eq_left hij]
  have key : statusAfter wd (sched.take i) ≠ .PROCESSING →
      statusAfter wd (sched.take j) = statusAfter wd (sched.take i) := by
    intro hne
    cases hsome : (execRun wd (sched.take i)).2 with
    | none => exact absurd (statusAfter_of_none wd _ hsome) hne
    | some s =>
      have habs := execRun_absorbed wd (sched.take i) ((sched.take j).drop i)
        (by simp [hsome])
      unfold statusAfter
      rw [hdecomp, habs]
  refine ⟨key, ?_, ?_, ?_⟩
  · intro s hs
    rw [hdecomp, execRun_absorbed wd _ _ (by simp [hs])]
    exact hs
  · intro s hs
    exact execRun_final_terminal wd _ s hs
  · intro hneq
    by_contra hP
    exact hneq (key hP).symm

/-- C3, witness: a task whose first tick reaches the workload duration is
finalized DONE at stage 1, and the stored status is unchanged at stage 2. -/
theorem c3_witness :
    statusAfter minute ([ExecEvent.tick minute true true,
      ExecEvent.tick (2 * minute) true true].take 2) =
    statusAfter minute ([ExecEvent.tick minute true true,
      ExecEvent.tick (2 * minute) true true].take 1) :=
  (c3_terminal_state_invariant minute
    [ExecEvent.tick minute true true, ExecEvent.tick (2 * minute) true true]
    1 2 (by decide)).1 (by decide)

/-! ## C4 -/

/-- C4: the executor's per-tick algorithm. The polling period is the fixed
1-second ticker. On a tick observing elapsed time `e`: if `e` is at least the
drawn workload duration, the run finalizes with a single DONE write carrying
exactly that elapsed time, reports DONE to the context, and returns (the rest
of the schedule is ignored); otherwise the executor persists the updated
elapsed time as a PROCESSING write, and when that write is rejected it
immediately finalizes with a FAILED write carrying the same elapsed time and
returns; when the write is accepted the loop continues with the remaining
schedule. -/
theorem c4_executor_tick (wd e : Int) (upd fin : Bool) (rest : List ExecEvent) :
    tickInterval = 1 * second ∧
    (wd ≤ e →
      execRun wd (.tick e upd fin :: rest) = ([⟨.DONE, e, fin⟩], some .DONE)) ∧
    (e < wd → upd = true →
      execRun wd (.tick e upd fin :: rest) =
        (⟨.PROCESSING, e, true⟩ :: (execRun wd rest).1, (execRun wd rest).2)) ∧
    (e < wd → upd = false →
      execRun wd (.tick e upd fin :: rest) =
        ([⟨.PROCESSING, e, false⟩, ⟨.FAILED, e, fin⟩], some .FAILED)) := by
  refine ⟨rfl, ?_, ?_, ?_⟩
  · intro hle
    simp [execRun, hle]
  · intro hlt hupd
    subst hupd
    simp [execRun, not_le.mpr hlt]
  · intro hlt hupd
    subst hupd
    simp [execRun, not_le.mpr hlt]

/-- C4, witness: a tick at exactly the workload duration finalizes DONE. -/
theorem c4_witness :
    execRun (3 * minute) [ExecEvent.tick (3 * minute) true true] =
      ([⟨.DONE, 3 * minute, true⟩], some .DONE) ∧
    execRun (3 * minute)
      [ExecEvent.tick (1 * second) false true, ExecEvent.tick (3 * minute) true true] =
      ([⟨.PROCESSING, 1 * second, false⟩, ⟨.FAILED, 1 * second, true⟩], some .FAILED) :=
  ⟨(c4_executor_tick (3 * minute) (3 * minute) true true []).2.1 le_rfl,
   (c4_executor_tick (3 * minute) (1 * second) false true
      [ExecEvent.tick (3 * minute) true true]).2.2.2 (by decide) rfl⟩

/-! ## C5 -/

/-- C5: `DeleteTask`. When the id is absent at the initial existence check it
fails with NotFound and changes nothing. When the id is present and no
concurrent writer interferes, it succeeds: the live Execution Context (when
one is registered) is cancelled and removed from the registry, the persisted
record is deleted, and `getTask` thereafter returns NotFound. When the record
vanishes between the check and the delete, it reports an error rather than
silent success. -/
theorem c5_deleteTask (st : ServiceState) (id : Nat) :
    (rLoad st.repo id = none →
      ∀ vanished, deleteTask st vanished id = (.error .notFound, st, [])) ∧
    (∀ t, rLoad st.repo id = some t →
      (deleteTask st false id).1 = .ok () ∧
      (deleteTask st false id).2.2 =
        (if (loadTaskContext st id).isSome then [id] else []) ∧
      loadTaskContext (deleteTask st false id).2.1 id =
        (if (loadTaskContext st id).isSome then none else loadTaskContext st id) ∧
      (∀ now, getTask (deleteTask st false id).2.1 now id = .error .notFound)) ∧
    (∀ t, rLoad st.repo id = some t →
      (deleteTask st true id).1 = .error .deleteFailed) := by
  refine ⟨?_, ?_, ?_⟩
  · intro hnone vanished
    simp [deleteTask, repoGetByID, hnone]
  · intro t hsome
    have hdel : repoDelete st.repo id = .ok (rDelete st.repo id) := by
      simp [repoDelete, hsome]
    cases hctx : st.contexts.find? (fun p => p.1 == id) with
    | none =>
      refine ⟨?_, ?_, ?_, ?_⟩ <;>
        simp [deleteTask, loadTaskContext, repoGetByID, hsome, hctx, hdel,
          getTask, rLoad_rDelete_self]
    | some pair =>
      refine ⟨?_, ?_, ?_, ?_⟩ <;>
        simp [deleteTask, loadTaskContext, repoGetByID, hsome, hctx, hdel,
          getTask, rLoad_rDelete_self, removeContext, find_key_filter_ne]
  · intro t hsome
    have hdel : repoDelete (rDelete st.repo id) id = .error .notFound := by
      simp [repoDelete, rLoad_rDelete_self]
    cases hctx : st.contexts.find? (fun p => p.1 == id) with
    | none => simp [deleteTask, loadTaskContext, repoGetByID, hsome, hctx, hdel]
    | some pair => simp [deleteTask, loadTaskContext, repoGetByID, hsome, hctx, hdel]

/-- C5, witness at a concrete state: one stored task with a live context. -/
theorem c5_witness :
    (deleteTask ⟨[(7, ⟨7, "a", .PROCESSING, 0, 0⟩)], [(7, ⟨7, 0, false, .PROCESSING⟩)]⟩
        false 7).1 = .ok () ∧
    (deleteTask ⟨[(7, ⟨7, "a", .PROCESSING, 0, 0⟩)], [(7, ⟨7, 0, false, .PROCESSING⟩)]⟩
        false 7).2.2 = [7] ∧
    getTask (deleteTask ⟨[(7, ⟨7, "a", .PROCESSING, 0, 0⟩)],
        [(7, ⟨7, 0, false, .PROCESSING⟩)]⟩ false 7).2.1 9 7 = .error .notFound := by
  have h := (c5_deleteTask
    ⟨[(7, ⟨7, "a", .PROCESSING, 0, 0⟩)], [(7, ⟨7, 0, false, .PROCESSING⟩)]⟩ 7).2.1
    ⟨7, "a", .PROCESSING, 0, 0⟩ rfl
  exact ⟨h.1, by simpa using h.2.1, h.2.2.2 9⟩

/-! ## C6 -/

/-- C6: `GetTask` fetches the persisted record, propagating NotFound when it
is absent. Exactly when the fetched task has status PROCESSING and a
registered, not-yet-finished Execution Context exists for its id, the
returned copy's processing time is overlaid by the recomputed live elapsed
time (now minus the context's start timestamp) while all other fields are
unchanged; in every other case (task not PROCESSING, no context, or a
finished context) the persisted record is returned unchanged. -/
theorem c6_getTask (st : ServiceState) (now : Int) (id : Nat) :
    (rLoad st.repo id = none → getTask st now id = .error .notFound) ∧
    (∀ t, rLoad st.repo id = some t →
      (∀ tc, t.status = .PROCESSING → loadTaskContext st t.id = some tc →
        tc.doneClosed = false →
        getTask st now id = .ok { t with processingTime := now - tc.started }) ∧
      (t.status ≠ .PROCESSING → getTask st now id = .ok t) ∧
      (loadTaskContext st t.id = none → getTask st now id = .ok t) ∧
      (∀ tc, loadTaskContext st t.id = some tc → tc.doneClosed = true →
        getTask st now id = .ok t)) := by
  constructor
  · intro hnone
    simp [getTask, repoGetByID, hnone]
  · intro t hsome
    refine ⟨?_, ?_, ?_, ?_⟩
    · intro tc hp hctx hopen
      simp [getTask, repoGetByID, hsome, updateTaskProcessingTime,
        Task.IsProcessing, hp, hctx, TaskContext.IsFinished, hopen, copyTask_eq]
    · intro hnp
      simp [getTask, repoGetByID, hsome, updateTaskProcessingTime,
        Task.IsProcessing, hnp, copyTask_eq]
    · intro hctx
      by_cases hp : t.status = TaskStatus.PROCESSING <;>
        simp [getTask, repoGetByID, hsome, updateTaskProcessingTime,
          Task.IsProcessing, hp, hctx, copyTask_eq]
    · intro tc hctx hclosed
      by_cases hp : t.status = TaskStatus.PROCESSING <;>
        simp [getTask, repoGetByID, hsome, updateTaskProcessingTime,
          Task.IsProcessing, hp, hctx, TaskContext.IsFinished, hclosed, copyTask_eq]

/-- C6, witness: a PROCESSING task with a live context started at 100, read
at 250, comes back with processing time 150; a DONE task is unchanged. -/
theorem c6_witness :
    getTask ⟨[(3, ⟨3, "a", .PROCESSING, 0, 7⟩)], [(3, ⟨3, 100, false, .PROCESSING⟩)]⟩
      250 3 = .ok ⟨3, "a", .PROCESSING, 0, 150⟩ ∧
    getTask ⟨[(4, ⟨4, "b", .DONE, 0, 7⟩)], [(4, ⟨4, 100, false, .PROCESSING⟩)]⟩
      250 4 = .ok ⟨4, "b", .DONE, 0, 7⟩ :=
  ⟨((c6_getTask ⟨[(3, ⟨3, "a", .PROCESSING, 0, 7⟩)], [(3, ⟨3, 100, false, .PROCESSING⟩)]⟩
      250 3).2 ⟨3, "a", .PROCESSING, 0, 7⟩ rfl).1 ⟨3, 100, false, .PROCESSING⟩ rfl rfl rfl,
   ((c6_getTask ⟨[(4, ⟨4, "b", .DONE, 0, 7⟩)], [(4, ⟨4, 100, false, .PROCESSING⟩)]⟩
      250 4).2 ⟨4, "b", .DONE, 0, 7⟩ rfl).2.1 (by decide)⟩

/-! ## C7 -/

/-- C7: the store's error contract. `Create` fails with AlreadyExists exactly
when the identifier is already bound, and otherwise succeeds, stamping the
creation time `now` on the stored record. `GetByID` fails with NotFound
exactly when the id is absent and otherwise returns the stored record.
`Update` fails with NotFound exactly when the id is absent and otherwise
replaces the stored record. `Delete` fails with NotFound exactly when the id
is absent and otherwise removes the record. -/
theorem c7_store_contract (r : Repo) (now : Int) (t : Task) (id : Nat) :
    ((rLoad r t.id).isSome → repoCreate r now t = .error .alreadyExists) ∧
    (rLoad r t.id = none →
      repoCreate r now t =
        .ok (rStore r t.id { t with createdAt := now }, { t with createdAt := now }) ∧
      rLoad (rStore r t.id { t with createdAt := now }) t.id =
        some { t with createdAt := now }) ∧
    (rLoad r id = none → repoGetByID r id = .error .notFound) ∧
    (∀ u, rLoad r id = some u → repoGetByID r id = .ok u) ∧
    (rLoad r t.id = none → repoUpdate r t = .error .notFound) ∧
    ((rLoad r t.id).isSome →
      repoUpdate r t = .ok (rStore r t.id t) ∧
      rLoad (rStore r t.id t) t.id = some t) ∧
    (rLoad r id = none → repoDelete r id = .error .notFound) ∧
    ((rLoad r id).isSome →
      repoDelete r id = .ok (rDelete r id) ∧
      rLoad (rDelete r id) id = none) := by
  refine ⟨?_, ?_, ?_, ?_, ?_, ?_, ?_, ?_⟩
  · intro hsome
    simp [repoCreate, hsome]
  · intro hnone
    exact ⟨by simp [repoCreate, hnone, copyTask_eq], rLoad_rStore_self r t.id _⟩
  · intro hnone
    simp [repoGetByID, hnone]
  · intro u hsome
    simp [repoGetByID, hsome, copyTask_eq]
  · intro hnone
    simp [repoUpdate, hnone]
  · intro hsome
    exact ⟨by simp [repoUpdate, hsome, copyTask_eq], rLoad_rStore_self r t.id t⟩
  · intro hnone
    simp [repoDelete, hnone]
  · intro hsome
    exact ⟨by simp [repoDelete, hsome], rLoad_rDelete_self r id⟩

/-- C7, witness: the contract evaluated on a one-record store. -/
theorem c7_witness :
    repoCreate [(1, ⟨1, "x", .PROCESSING, 0, 0⟩)] 9 ⟨1, "y", .PROCESSING, 0, 0⟩ =
      .error .alreadyExists ∧
    repoCreate [(1, ⟨1, "x", .PROCESSING, 0, 0⟩)] 9 ⟨2, "y", .PROCESSING, 0, 0⟩ =
      .ok (rStore [(1, ⟨1, "x", .PROCESSING, 0, 0⟩)] 2 ⟨2, "y", .PROCESSING, 9, 0⟩,
           ⟨2, "y", .PROCESSING, 9, 0⟩) ∧
    repoGetByID [(1, (⟨1, "x", .PROCESSING, 0, 0⟩ : Task))] 5 = .error .notFound ∧
    repoGetByID [(1, (⟨1, "x", .PROCESSING, 0, 0⟩ : Task))] 1 =
      .ok ⟨1, "x", .PROCESSING, 0, 0⟩ ∧
    repoDelete [(1, (⟨1, "x", .PROCESSING, 0, 0⟩ : Task))] 1 = .ok [] := by
  have h1 := c7_store_contract [(1, ⟨1, "x", .PROCESSING, 0, 0⟩)] 9
    ⟨1, "y", .PROCESSING, 0, 0⟩ 5
  have h2 := c7_store_contract [(1, ⟨1, "x", .PROCESSING, 0, 0⟩)] 9
    ⟨2, "y", .PROCESSING, 0, 0⟩ 1
  exact ⟨h1.1 rfl, (h2.2.1 rfl).1, h1.2.2.1 rfl,
    h2.2.2.2.1 ⟨1, "x", .PROCESSING, 0, 0⟩ rfl, (h2.2.2.2.2.2.2.2 rfl).1⟩

/-! ## C8 -/

/-- C8: the synthetic workload duration drawn at task start,
`time.Duration(3+rand.Intn(3)) * time.Minute`, always lies within the bounded
range of 3 to 6 minutes; it depends only on the uniform draw `rand.Intn 3`
and is injective on the three possible draws, so the three outcomes 3, 4 and
5 minutes are drawn uniformly. The coordinator's enclosing cancellation
timeout on the task's execution scope, `defaultTimeToProcessTask`, is
6 minutes, and `CreateTask` sets the scope's deadline exactly 6 minutes after
the task's start instant. -/
theorem c8_workload_range_and_timeout (r : Nat) :
    3 * minute ≤ drawWorkDuration r ∧
    drawWorkDuration r ≤ 6 * minute ∧
    (drawWorkDuration r = 3 * minute ∨ drawWorkDuration r = 4 * minute ∨
      drawWorkDuration r = 5 * minute) ∧
    drawWorkDuration r = drawWorkDuration (intn 3 r) ∧
    intn 3 r < 3 ∧
    (∀ a b, a < 3 → b < 3 → drawWorkDuration a = drawWorkDuration b → a = b) ∧
    defaultTimeToProcessTask = 6 * minute ∧
    (∀ st now freshId name out, createTask st now freshId name = .ok out →
      out.2.2 = now + defaultTimeToProcessTask) := by
  have hmod : r % 3 = 0 ∨ r % 3 = 1 ∨ r % 3 = 2 := by omega
  refine ⟨?_, ?_, ?_, ?_, ?_, ?_, rfl, ?_⟩
  · rcases hmod with h | h | h <;>
      simp [drawWorkDuration, intn, h, minute, second]
  · rcases hmod with h | h | h <;>
      simp [drawWorkDuration, intn, h, minute, second]
  · rcases hmod with h | h | h <;>
      simp [drawWorkDuration, intn, h, minute, second]
  · simp [drawWorkDuration, intn, Nat.mod_mod_of_dvd r (dvd_refl 3)]
  · exact Nat.mod_lt _ (by omega)
  · intro a b ha hb heq
    have ha' : a % 3 = a := Nat.mod_eq_of_lt ha
    have hb' : b % 3 = b := Nat.mod_eq_of_lt hb
    simp only [drawWorkDuration, intn, ha', hb', minute, second] at heq
    omega
  · intro st now freshId name out hok
    cases hcr : repoCreate st.repo now
        { id := freshId, name := name, status := .PROCESSING
          createdAt := now, processingTime := 0 } with
    | error e =>
      simp only [createTask, hcr] at hok
      exact absurd hok (by simp)
    | ok pr =>
      obtain ⟨r', task'⟩ := pr
      simp only [createTask, hcr, Except.ok.injEq] at hok
      rw [← hok]

/-- C8, witness at concrete draws and a concrete creation. -/
theorem c8_witness :
    3 * minute ≤ drawWorkDuration 7 ∧
    drawWorkDuration 7 ≤ 6 * minute ∧
    defaultTimeToProcessTask = 6 * minute := by
  have h := c8_workload_range_and_timeout 7
  exact ⟨h.1, h.2.1, h.2.2.2.2.2.2.1⟩

/-! ## C9 -/

/-- Writing through one pointer does not change the record behind another. -/
theorem Heap.read_write_ne (h : Heap) {p q : Nat} (hpq : p ≠ q) (v : Task) :
    (h.write p v).read q = h.read q :=
  List.getElem?_set_ne hpq

/-- A readable pointer is a valid index. -/
theorem Heap.read_lt_length {h : Heap} {p : Nat} {t : Task}
    (hr : h.read p = some t) : p < h.cells.length := by
  rw [Heap.read, List.getElem?_eq_some] at hr
  exact hr.1

/-- A freshly allocated cell holds the allocated record. -/
theorem Heap.read_alloc_self (h : Heap) (t : Task) :
    (h.alloc t).1.read (h.alloc t).2 = some t :=
  List.getElem?_concat_length _ _

/-- Allocation does not disturb existing cells. -/
theorem Heap.read_alloc_lt (h : Heap) (t : Task) {p : Nat}
    (hp : p < h.cells.length) : (h.alloc t).1.read p = h.read p :=
  List.getElem?_append_left hp

/-- Allocation grows the heap by one cell. -/
theorem Heap.alloc_length (h : Heap) (t : Task) :
    (h.alloc t).1.cells.length = h.cells.length + 1 := by
  simp [Heap.alloc]

/-- `GetAll` only allocates: every returned pointer is fresh (at or above the
old heap top), and no pre-existing cell is disturbed. -/
theorem hGetAll_fresh (h : Heap) (entries : List (Nat × Nat)) :
    h.cells.length ≤ (hGetAll h entries).1.cells.length ∧
    (∀ q ∈ (hGetAll h entries).2,
      h.cells.length ≤ q ∧ q < (hGetAll h entries).1.cells.length) ∧
    (∀ p, p < h.cells.length → (hGetAll h entries).1.read p = h.read p) := by
  induction entries generalizing h with
  | nil => exact ⟨le_rfl, by simp [hGetAll], fun p hp => rfl⟩
  | cons e rest ih =>
    cases hre : h.read e.2 with
    | none => simpa [hGetAll, hre] using ih h
    | some t =>
      have iha := ih (h.alloc (copyTask t)).1
      have hlen := h.alloc_length (copyTask t)
      simp only [hGetAll, hre]
      refine ⟨by omega, ?_, ?_⟩
      · intro q hq
        rcases List.mem_cons.mp hq with rfl | hmem
        · refine ⟨le_rfl, ?_⟩
          have h2 := iha.1
          simp only [Heap.alloc] at h2 ⊢
          simp at h2
          omega
        · have h3 := iha.2.1 q hmem
          omega
      · intro p hp
        have hp' : p < (h.alloc (copyTask t)).1.cells.length := by omega
        rw [iha.2.2 p hp', h.read_alloc_lt (copyTask t) hp]

/-- C9: copy-on-boundary store semantics at the pointer level. Hypotheses:
the store is well-formed (its pointers are valid) and the caller's record is
not a store-owned cell (the store never leaks interior pointers). Then:
the field-by-field copy is a complete snapshot; `GetByID` returns a fresh
cell holding exactly the stored record, and mutating it changes no
store-owned cell; `Create` stores a cell distinct from the caller's record,
so mutating the caller's record after the call never changes the stored
cell, and all store pointers stay valid; `Update` stores only fresh cells,
so mutating the caller's record afterwards changes no store-owned cell; and
every record returned by `GetAll` is a fresh cell whose mutation changes no
store-owned cell. -/
theorem c9_copy_on_boundary (h : Heap) (r : HRepo) (now : Int) (p id : Nat)
    (hwf : HWf h r) (hcaller : ∀ e ∈ r.entries, e.2 ≠ p) :
    (∀ t : Task, copyTask t = t) ∧
    (∀ h' q, hGetByID h r id = some (h', q) →
      (∃ pin t, r.refOf id = some pin ∧ h.read pin = some t ∧ h'.read q = some t) ∧
      (∀ v, ∀ e ∈ r.entries, (h'.write q v).read e.2 = h'.read e.2)) ∧
    (∀ h₂ r₂ q, hCreate h r now p = some (h₂, r₂, q) →
      q ≠ p ∧
      (∀ v, (h₂.write p v).read q = h₂.read q) ∧
      HWf h₂ r₂) ∧
    (∀ h₁ r₁, hUpdate h r p = some (h₁, r₁) →
      ∀ v, ∀ e ∈ r₁.entries, (h₁.write p v).read e.2 = h₁.read e.2) ∧
    (∀ q ∈ (hGetAll h r.entries).2, ∀ v, ∀ e ∈ r.entries,
      ((hGetAll h r.entries).1.write q v).read e.2 =
        (hGetAll h r.entries).1.read e.2) := by
  refine ⟨fun t => rfl, ?_, ?_, ?_, ?_⟩
  · intro h' q hget
    unfold hGetByID at hget
    cases hpin : r.refOf id with
    | none => simp [hpin] at hget
    | some pin =>
      simp only [hpin] at hget
      cases hrd : h.read pin with
      | none => simp [hrd] at hget
      | some t =>
        simp only [hrd, Option.some.injEq] at hget
        obtain ⟨rfl, rfl⟩ : (h.alloc (copyTask t)).1 = h' ∧ (h.alloc (copyTask t)).2 = q := by
          exact ⟨congrArg Prod.fst hget, congrArg Prod.snd hget⟩
        constructor
        · exact ⟨pin, t, rfl, hrd, h.read_alloc_self (copyTask t)⟩
        · intro v e hmem
          have hlt : e.2 < h.cells.length := hwf e hmem
          have hne : (h.alloc (copyTask t)).2 ≠ e.2 := by
            simp only [Heap.alloc]
            omega
          exact Heap.read_write_ne _ hne v
  · intro h₂ r₂ q hcr
    unfold hCreate at hcr
    cases hrd : h.read p with
    | none => simp [hrd] at hcr
    | some t =>
      simp only [hrd] at hcr
      by_cases hex : (r.refOf t.id).isSome
      · simp [hex] at hcr
      · simp only [hex, Bool.false_eq_true, if_false, Option.some.injEq] at hcr
        have hple : p < h.cells.length := h.read_lt_length hrd
        obtain ⟨rfl, rfl, rfl⟩ :
            ((h.write p { t with createdAt := now }).alloc
              (copyTask { t with createdAt := now })).1 = h₂ ∧
            (⟨(t.id, ((h.write p { t with createdAt := now }).alloc
              (copyTask { t with createdAt := now })).2) :: r.entries⟩ : HRepo) = r₂ ∧
            ((h.write p { t with createdAt := now }).alloc
              (copyTask { t with createdAt := now })).2 = q := by
          exact ⟨congrArg Prod.fst hcr, congrArg (fun x => x.2.1) hcr,
            congrArg (fun x => x.2.2) hcr⟩
        have hwlen : (h.write p { t with createdAt := now }).cells.length
            = h.cells.length := by
          simp [Heap.write]
        refine ⟨?_, ?_, ?_⟩
        · simp only [Heap.alloc, hwlen]
          omega
        · intro v
          refine Heap.read_write_ne _ ?_ v
          simp only [Heap.alloc, hwlen]
          omega
        · intro e hmem
          rcases List.mem_cons.mp hmem with rfl | hmem'

          · simp only [Heap.alloc, hwlen, List.length_append, List.length_cons,
              List.length_nil]
            omega
          · have := hwf e hmem'
            simp only [Heap.alloc, hwlen, List.length_append, List.length_cons,
              List.length_nil]
            omega
  · intro h₁ r₁ hup
    unfold hUpdate at hup
    cases hrd : h.read p with
    | none => simp [hrd] at hup
    | some t =>
      simp only [hrd] at hup
      by_cases hex : (r.refOf t.id).isSome
      · simp only [hex, if_true, Option.some.injEq] at hup
        have hple : p < h.cells.length := h.read_lt_length hrd
        obtain ⟨rfl, rfl⟩ :
            (h.alloc (copyTask t)).1 = h₁ ∧
            (⟨(t.id, (h.alloc (copyTask t)).2) ::
              r.entries.filter (fun e => e.1 != t.id)⟩ : HRepo) = r₁ := by
          exact ⟨congrArg Prod.fst hup, congrArg Prod.snd hup⟩
        intro v e hmem
        rcases List.mem_cons.mp hmem with rfl | hmem'
        · refine Heap.read_write_ne _ ?_ v
          simp only [Heap.alloc]
          omega
        · have hmem'' := (List.mem_filter.mp hmem').1
          exact Heap.read_write_ne _ (Ne.symm (hcaller e hmem'')) v
      · simp [hex] at hup
  · intro q hq v e hmem
    have hfresh := (hGetAll_fresh h r.entries).2.1 q hq
    have hlt : e.2 < h.cells.length := hwf e hmem
    refine Heap.read_write_ne _ ?_ v
    omega

/-- C9, witness: a one-record store plus a distinct caller record; the copy
returned by `GetByID` lives at a fresh cell, and mutating it leaves the
store-owned cell unchanged. -/
theorem c9_witness :
    hGetByID ⟨[⟨1, "s", .PROCESSING, 0, 0⟩, ⟨2, "c", .PROCESSING, 0, 0⟩]⟩
      ⟨[(1, 0)]⟩ 1 =
      some (⟨[⟨1, "s", .PROCESSING, 0, 0⟩, ⟨2, "c", .PROCESSING, 0, 0⟩,
        ⟨1, "s", .PROCESSING, 0, 0⟩]⟩, 2) ∧
    (Heap.write ⟨[⟨1, "s", .PROCESSING, 0, 0⟩, ⟨2, "c", .PROCESSING, 0, 0⟩,
        ⟨1, "s", .PROCESSING, 0, 0⟩]⟩ 2 ⟨9, "z", .DONE, 9, 9⟩).read 0 =
      Heap.read ⟨[⟨1, "s", .PROCESSING, 0, 0⟩, ⟨2, "c", .PROCESSING, 0, 0⟩,
        ⟨1, "s", .PROCESSING, 0, 0⟩]⟩ 0 := by
  have hc := c9_copy_on_boundary
    ⟨[⟨1, "s", .PROCESSING, 0, 0⟩, ⟨2, "c", .PROCESSING, 0, 0⟩]⟩ ⟨[(1, 0)]⟩ 0 1 1
    (by unfold HWf; decide) (by decide)
  exact ⟨rfl, (hc.2.1 _ 2 rfl).2 ⟨9, "z", .DONE, 9, 9⟩ (1, 0) (by decide)⟩

/-! ## C10 -/

/-- C10: `DeleteTask` is not atomic on its late failure path. When the task
exists at the initial check and has a live Execution Context, but the stored
record vanishes between the check and the final `repo.Delete`, the call
returns an error — yet the context has already been cancelled and removed
from the registry by then, so the in-flight execution was terminated even
though the operation reported failure. -/
theorem c10_deleteTask_cancels_before_failing
    (st : ServiceState) (id : Nat) (t : Task) (tc : TaskContext)
    (hload : rLoad st.repo id = some t)
    (hctx : st.contexts.find? (fun p => p.1 == id) = some (id, tc)) :
    (deleteTask st true id).1 = .error .deleteFailed ∧
    (deleteTask st true id).2.2 = [id] ∧
    loadTaskContext (deleteTask st true id).2.1 id = none := by
  have hdel : repoDelete (rDelete st.repo id) id = .error .notFound := by
    simp [repoDelete, rLoad_rDelete_self]
  refine ⟨?_, ?_, ?_⟩ <;>
    simp [deleteTask, loadTaskContext, repoGetByID, hload, hctx, hdel,
      removeContext, find_key_filter_ne]

/-- C10, witness at a concrete state. -/
theorem c10_witness :
    (deleteTask ⟨[(7, ⟨7, "a", .PROCESSING, 0, 0⟩)], [(7, ⟨7, 0, false, .PROCESSING⟩)]⟩
        true 7).1 = .error .deleteFailed ∧
    (deleteTask ⟨[(7, ⟨7, "a", .PROCESSING, 0, 0⟩)], [(7, ⟨7, 0, false, .PROCESSING⟩)]⟩
        true 7).2.2 = [7] ∧
    loadTaskContext (deleteTask ⟨[(7, ⟨7, "a", .PROCESSING, 0, 0⟩)],
        [(7, ⟨7, 0, false, .PROCESSING⟩)]⟩ true 7).2.1 7 = none :=
  c10_deleteTask_cancels_before_failing
    ⟨[(7, ⟨7, "a", .PROCESSING, 0, 0⟩)], [(7, ⟨7, 0, false, .PROCESSING⟩)]⟩ 7
    ⟨7, "a", .PROCESSING, 0, 0⟩ ⟨7, 0, false, .PROCESSING⟩ rfl rfl

end Workmate
